import Mathlib

/-!
Verification of the multi-tier caching and precomputation engine
(src/cache/memory-cache.ts, src/cache/redis-cache.ts,
src/cache/cache-service.ts, src/services/response-precomputer.ts).

The TypeScript code is shallowly embedded: JS `Map` objects become
insertion-ordered association lists, `Date.now()` becomes an explicit
integer parameter `now` (milliseconds), thrown exceptions become
`Except` results, and the distributed store's transport is modelled by
an `available` flag (when false, every command of the underlying client
raises, which is what the `catch` blocks in redis-cache.ts observe).
Logging, response-time bookkeeping and the silent-fail pattern-index
writes (`addToPattern` / `trackAccess`, which no operation ever reads)
are omitted; everything an operation can observe is modelled.
-/

namespace LMRender

/-- Models the JS expression `x || d` applied to an optional numeric
argument (as in `ttl || this.defaultTTL`): `undefined` and `0` are falsy
and select the default. -/
def jsOr (x : Option Int) (d : Int) : Int :=
  match x with
  | none => d
  | some t => if t = 0 then d else t

/-! ### JS `Map` as an insertion-ordered association list -/

/-- `Map.get`: the value of the first (unique) entry with the key. -/
def mapLookup {β : Type} (l : List (String × β)) (k : String) : Option β :=
  (l.find? fun kv => kv.1 == k).map (fun kv => kv.2)

/-- `Map.has`. -/
def mapHas {β : Type} (l : List (String × β)) (k : String) : Bool :=
  l.any fun kv => kv.1 == k

/-- `Map.set`: replaces the entry in place when the key is present
(keeping its position, as JS maps do), otherwise appends. -/
def mapSet {β : Type} (l : List (String × β)) (k : String) (v : β) :
    List (String × β) :=
  if mapHas l k then l.map fun kv => if kv.1 == k then (k, v) else kv
  else l ++ [(k, v)]

/-- `Map.delete`: removes the entry with the key.  A JS map has unique
keys, so removing every entry with the key is extensionally the same. -/
def mapDelete {β : Type} (l : List (String × β)) (k : String) :
    List (String × β) :=
  l.filter fun kv => !(kv.1 == k)

/-! ### The regular expression produced by `invalidatePattern`

memory-cache.ts builds `new RegExp(pattern.replace(/\*/g, '.*'))` and
calls `regex.test(key)`, an unanchored search.  Over the alphabet the
repository's patterns use, the compiled regex is a sequence of literal
characters, `.` wildcards, optional atoms (a `?` quantifier) and `.*`
gaps; `compileRegex` performs exactly the `replace` plus that parse
(returning `none` when `RegExp` would throw "nothing to repeat"), and
`regexTest` is `RegExp.test`. -/

inductive RTok : Type where
  | lit (c : Char)
  | opt (c : Char)
  | dot
  | optAny
  | star
deriving DecidableEq

/-- Parse the JS regex obtained from a glob pattern by `replace(/\*/g, '.*')`:
a `*` becomes a `.*` gap, a `.` matches any character, and `?` makes the
preceding atom optional (`x??` and `.*?` are the lazy forms, which accept
the same strings under `test`).  A leading `?` makes `RegExp` throw. -/
def compileRegexAux : List Char → List RTok → Option (List RTok)
  | [], acc => some acc.reverse
  | c :: cs, acc =>
    if c = '*' then compileRegexAux cs (.star :: acc)
    else if c = '.' then compileRegexAux cs (.dot :: acc)
    else if c = '?' then
      match acc with
      | .lit c0 :: rest => compileRegexAux cs (.opt c0 :: rest)
      | .opt c0 :: rest => compileRegexAux cs (.opt c0 :: rest)
      | .dot :: rest => compileRegexAux cs (.optAny :: rest)
      | .optAny :: rest => compileRegexAux cs (.optAny :: rest)
      | .star :: rest => compileRegexAux cs (.star :: rest)
      | [] => none
    else compileRegexAux cs (.lit c :: acc)

def compileRegex (p : List Char) : Option (List RTok) :=
  compileRegexAux p []

/-- Does `f` accept some suffix of the string?  This is how both a `.*`
gap and the unanchored `test` search consume input. -/
def suffixAny (f : List Char → Bool) : List Char → Bool
  | [] => f []
  | x :: xs => f (x :: xs) || suffixAny f xs

/-- Anchored-at-the-start matching of the parsed regex: a `.*` gap
matches when the rest of the regex matches some suffix. -/
def matchesFrom : List RTok → List Char → Bool
  | [], _ => true
  | .lit c :: ts, s =>
    match s with
    | [] => false
    | x :: xs => x == c && matchesFrom ts xs
  | .opt c :: ts, s =>
    match s with
    | [] => matchesFrom ts []
    | x :: xs => (x == c && matchesFrom ts xs) || matchesFrom ts (x :: xs)
  | .dot :: ts, s =>
    match s with
    | [] => false
    | _ :: xs => matchesFrom ts xs
  | .optAny :: ts, s =>
    match s with
    | [] => matchesFrom ts []
    | x :: xs => matchesFrom ts xs || matchesFrom ts (x :: xs)
  | .star :: ts, s => suffixAny (matchesFrom ts) s

/-- `RegExp.test`: unanchored search for a match at any position. -/
def regexTest (ts : List RTok) (s : List Char) : Bool :=
  suffixAny (matchesFrom ts) s

/-! ### Bounded local cache (L1) — src/cache/memory-cache.ts

Values are a type parameter `α` (the class is generic in `T`); the
`calculateSize` helper serializes the value to JSON, which the embedding
abstracts as a size function `sizeFn`.  The periodic `cleanup` sweep and
`getStats`, `getHotKeys`, `preloadHotData` are not needed by any claim.
-/

structure MemEntry (α : Type) : Type where
  value : α
  expiresAt : Int
  lastAccessed : Int
  createdAt : Int
  size : Nat
  hitCount : Nat
deriving DecidableEq

structure MemoryCache (α : Type) : Type where
  cache : List (String × MemEntry α)
  maxSize : Nat
  defaultTTL : Int
  hitCount : Nat
  missCount : Nat
  evictionCount : Nat
deriving DecidableEq

variable {α : Type}

/-- `MemoryCache.get`: lazy expiry on read, hit bookkeeping on the entry. -/
def memGet (now : Int) (key : String) (st : MemoryCache α) :
    Option α × MemoryCache α :=
  match mapLookup st.cache key with
  | none => (none, { st with missCount := st.missCount + 1 })
  | some entry =>
    if now > entry.expiresAt then
      (none, { st with cache := mapDelete st.cache key,
                       missCount := st.missCount + 1 })
    else
      (some entry.value,
       { st with
           cache := mapSet st.cache key
             { entry with lastAccessed := now, hitCount := entry.hitCount + 1 },
           hitCount := st.hitCount + 1 })

/-- One step of the `evictLRU` scan: keep the first entry seen whose
`lastAccessed` is strictly below the running minimum. -/
def lruScanStep (acc : String × Int) (kv : String × MemEntry α) : String × Int :=
  if kv.2.lastAccessed < acc.2 then (kv.1, kv.2.lastAccessed) else acc

/-- `MemoryCache.evictLRU`: the scan starts from `oldestKey = ''` and
`oldestTime = Date.now()`, and the final `if (oldestKey)` skips the
deletion when the scan never fired (or selected the empty-string key). -/
def evictLRU (now : Int) (st : MemoryCache α) : MemoryCache α :=
  let sc := st.cache.foldl lruScanStep ("", now)
  if sc.1 ≠ "" then
    { st with cache := mapDelete st.cache sc.1,
              evictionCount := st.evictionCount + 1 }
  else st

/-- `MemoryCache.set`: evict when at capacity and the key is new, then
insert with `expiresAt = now + (ttl || defaultTTL)`. -/
def memSet (sizeFn : α → Nat) (now : Int) (key : String) (value : α)
    (ttl : Option Int) (st : MemoryCache α) : MemoryCache α :=
  let expiresAt := now + jsOr ttl st.defaultTTL
  let st1 :=
    if st.maxSize ≤ st.cache.length ∧ mapHas st.cache key = false then
      evictLRU now st
    else st
  { st1 with
      cache := mapSet st1.cache key
        { value := value, expiresAt := expiresAt, lastAccessed := now,
          createdAt := now, size := sizeFn value, hitCount := 0 } }

/-- `MemoryCache.delete`. -/
def memDelete (key : String) (st : MemoryCache α) : Bool × MemoryCache α :=
  (mapHas st.cache key, { st with cache := mapDelete st.cache key })

/-- `MemoryCache.has`: lazy expiry, like `get`, without hit bookkeeping. -/
def memHas (now : Int) (key : String) (st : MemoryCache α) :
    Bool × MemoryCache α :=
  match mapLookup st.cache key with
  | none => (false, st)
  | some entry =>
    if now > entry.expiresAt then
      (false, { st with cache := mapDelete st.cache key })
    else (true, st)

/-- `MemoryCache.invalidatePattern`: compile the glob into a regex and
delete every stored key the unanchored regex matches, returning the
count.  `none` models the `RegExp` constructor throwing (the caller in
cache-service.ts catches it and reports 0). -/
def memInvalidatePattern (p : String) (st : MemoryCache α) :
    Option (Nat × MemoryCache α) :=
  (compileRegex p.data).map fun ts =>
    ((st.cache.filter fun kv => regexTest ts kv.1.data).length,
     { st with cache := st.cache.filter fun kv => !regexTest ts kv.1.data })

/-! ### Shared tier client (L2) — src/cache/redis-cache.ts

The client stores serialized `{value, expiresAt, createdAt, key}` under
`keyPrefix + key` (the configured prefix defaults to `"lm:"`).  The
transport is modelled by `available`: when false, every command of the
underlying `ioredis` client raises, which is what each method's
`catch` block sees.  `get`, `delete`, `has`, `getMultiple`,
`invalidatePattern`, `getStats` and `healthCheck` swallow that error and
report a miss-shaped result; `set`, `setMultiple` and `clear` log and
rethrow (`throw error`), which the embedding renders as `Except.error`.
-/

/-- The configured cache key prefix (`appConfig.cache.prefix`, default). -/
def keyPrefix : String := "lm:"

structure RedisEntry (α : Type) : Type where
  value : α
  expiresAt : Int
  createdAt : Int
  key : String
deriving DecidableEq

structure RedisCache (α : Type) : Type where
  store : List (String × RedisEntry α)
  available : Bool
  hitCount : Nat
  missCount : Nat
deriving DecidableEq

/-- Redis `KEYS` glob matching (anchored): `*` matches any sequence and
`?` any single character; the repository's keys use no bracket classes. -/
def globMatch : List Char → List Char → Bool
  | [], s => s.isEmpty
  | '*' :: ps, s => suffixAny (globMatch ps) s
  | '?' :: ps, s =>
    match s with
    | [] => false
    | _ :: xs => globMatch ps xs
  | c :: ps, s =>
    match s with
    | [] => false
    | x :: xs => x == c && globMatch ps xs

/-- `RedisCache.get`: transport failure degrades to a miss; a stored
entry with a (truthy) `expiresAt` in the past is deleted and missed. -/
def redisGet (now : Int) (key : String) (st : RedisCache α) :
    Option α × RedisCache α :=
  if st.available = false then
    (none, { st with missCount := st.missCount + 1 })
  else
    match mapLookup st.store (keyPrefix ++ key) with
    | none => (none, { st with missCount := st.missCount + 1 })
    | some entry =>
      if entry.expiresAt ≠ 0 ∧ now > entry.expiresAt then
        (none, { st with store := mapDelete st.store (keyPrefix ++ key),
                         missCount := st.missCount + 1 })
      else
        (some entry.value, { st with hitCount := st.hitCount + 1 })

/-- `RedisCache.set`: `setex` with the embedded metadata; on transport
failure the error is logged and rethrown. -/
def redisSet (now : Int) (key : String) (value : α) (ttl : Int)
    (st : RedisCache α) : Except Unit (RedisCache α) :=
  if st.available = false then .error ()
  else
    .ok { st with
            store := mapSet st.store (keyPrefix ++ key)
              { value := value, expiresAt := now + ttl * 1000,
                createdAt := now, key := keyPrefix ++ key } }

/-- `RedisCache.delete`: transport failure degrades to `false`. -/
def redisDelete (key : String) (st : RedisCache α) : Bool × RedisCache α :=
  if st.available = false then (false, st)
  else
    (mapHas st.store (keyPrefix ++ key),
     { st with store := mapDelete st.store (keyPrefix ++ key) })

/-- `RedisCache.has`: transport failure degrades to `false`. -/
def redisHas (key : String) (st : RedisCache α) : Bool × RedisCache α :=
  if st.available = false then (false, st)
  else (mapHas st.store (keyPrefix ++ key), st)

/-- `RedisCache.getMultiple`: a pipelined `get` per key; transport
failure degrades to an empty map.  Unlike `get`, expired entries are
only skipped, not deleted. -/
def redisGetMultiple (now : Int) (keys : List String) (st : RedisCache α) :
    List (String × α) × RedisCache α :=
  if st.available = false then ([], st)
  else
    keys.foldl
      (fun acc key =>
        match mapLookup st.store (keyPrefix ++ key) with
        | none => (acc.1, { acc.2 with missCount := acc.2.missCount + 1 })
        | some entry =>
          if entry.expiresAt = 0 ∨ now ≤ entry.expiresAt then
            (acc.1 ++ [(key, entry.value)],
             { acc.2 with hitCount := acc.2.hitCount + 1 })
          else (acc.1, { acc.2 with missCount := acc.2.missCount + 1 }))
      ([], st)

/-- `RedisCache.setMultiple`: pipelined `setex`; on transport failure
the error is logged and rethrown. -/
def redisSetMultiple (now : Int) (entries : List (String × α × Option Int))
    (st : RedisCache α) : Except Unit (RedisCache α) :=
  if st.available = false then .error ()
  else
    .ok (entries.foldl
      (fun acc e =>
        { acc with
            store := mapSet acc.store (keyPrefix ++ e.1)
              { value := e.2.1, expiresAt := now + jsOr e.2.2 300 * 1000,
                createdAt := now, key := keyPrefix ++ e.1 } })
      st)

/-- `RedisCache.invalidatePattern`: `KEYS prefix+pattern`, bulk delete,
count; transport failure degrades to 0. -/
def redisInvalidatePattern (p : String) (st : RedisCache α) :
    Nat × RedisCache α :=
  if st.available = false then (0, st)
  else
    let matched := st.store.filter fun kv =>
      globMatch (keyPrefix ++ p).data kv.1.data
    if matched.length = 0 then (0, st)
    else
      (matched.length,
       { st with store := st.store.filter fun kv =>
           !globMatch (keyPrefix ++ p).data kv.1.data })

/-! ### Unified cache facade — src/cache/cache-service.ts (two-tier build)

`CacheService` composes the two tiers and implements the SWR protocol.
The embedding adds a ghost event `log` recording each facade-level
`set` and `invalidatePattern` call; it influences nothing. -/

inductive FEvent : Type where
  | setEv (key : String) (ttl : Int)
  | invEv (pattern : String) (count : Nat)
deriving DecidableEq

structure CacheServiceState (α : Type) : Type where
  memory : MemoryCache α
  redis : RedisCache α
  processingKeys : List String
  memoryHits : Nat
  redisHits : Nat
  misses : Nat
  log : List FEvent
deriving DecidableEq

/-- `CacheService.get`: L1 unless skipped, then L2 unless skipped; an L2
hit is copied into L1 with TTL `min(options.ttl || 300, 300) * 1000`.
Neither tier's `get` can raise, so the surrounding `catch` is inert. -/
def facadeGet (sizeFn : α → Nat) (now : Int) (key : String)
    (skipMemory skipRedis : Bool) (ttlOpt : Option Int)
    (st : CacheServiceState α) : Option α × CacheServiceState α :=
  let step1 :=
    if skipMemory = false then
      let r := memGet now key st.memory
      (r.1, { st with memory := r.2 })
    else (none, st)
  match step1.1 with
  | some v => (some v, { step1.2 with memoryHits := step1.2.memoryHits + 1 })
  | none =>
    let st1 := step1.2
    if skipRedis = false then
      let r := redisGet now key st1.redis
      match r.1 with
      | some v =>
        let st2 := { st1 with redis := r.2 }
        let mem2 :=
          memSet sizeFn now key v (some (min (jsOr ttlOpt 300) 300 * 1000))
            st2.memory
        let st3 :=
          if skipMemory = false then { st2 with memory := mem2 } else st2
        (some v, { st3 with redisHits := st3.redisHits + 1 })
      | none =>
        (none, { st1 with redis := r.2, misses := st1.misses + 1 })
    else (none, { st1 with misses := st1.misses + 1 })

/-- `CacheService.set`: write L2 and L1 (L1 with `min(ttl,300)*1000`); an
L2 transport failure is logged and rethrown, after the L1 write already
happened. -/
def facadeSet (sizeFn : α → Nat) (now : Int) (key : String) (value : α)
    (ttl : Int) (skipMemory skipRedis : Bool) (st : CacheServiceState α) :
    Except Unit Unit × CacheServiceState α :=
  let st0 := { st with log := st.log ++ [FEvent.setEv key ttl] }
  let redisPart :
      Except Unit Unit × RedisCache α :=
    if skipRedis = false then
      match redisSet now key value ttl st0.redis with
      | .ok r => (.ok (), r)
      | .error e => (.error e, st0.redis)
    else (.ok (), st0.redis)
  let mem1 :=
    if skipMemory = false then
      memSet sizeFn now key value (some (min ttl 300 * 1000)) st0.memory
    else st0.memory
  (redisPart.1, { st0 with memory := mem1, redis := redisPart.2 })

/-- `CacheService.invalidatePattern`: memory count plus redis count; a
throwing `RegExp` constructor (or any other error) is caught and
reported as 0, before the redis half runs. -/
def facadeInvalidatePattern (p : String) (st : CacheServiceState α) :
    Nat × CacheServiceState α :=
  match memInvalidatePattern p st.memory with
  | none => (0, { st with log := st.log ++ [FEvent.invEv p 0] })
  | some (mc, mem1) =>
    let r := redisInvalidatePattern p st.redis
    (mc + r.1,
     { st with memory := mem1, redis := r.2,
               log := st.log ++ [FEvent.invEv p (mc + r.1)] })

/-- `CacheService.getWithMetadata`: an L1 hit reports the *estimated*
creation time `Date.now() - 30000` ("Assume 30 seconds old"); otherwise
the raw L2 payload at `'lm:' + key` is parsed and its stored `createdAt`
is reported, without an expiry check and without touching L1. -/
def facadeGetWithMetadata (now : Int) (key : String)
    (st : CacheServiceState α) :
    Option (α × Int) × CacheServiceState α :=
  let r := memGet now key st.memory
  match r.1 with
  | some v => (some (v, now - 30000), { st with memory := r.2 })
  | none =>
    let st1 := { st with memory := r.2 }
    if st.redis.available = false then (none, st1)
    else
      match mapLookup st.redis.store ("lm:" ++ key) with
      | none => (none, st1)
      | some entry => (some (entry.value, entry.createdAt), st1)

/-- A caller-supplied `fetchFn` outcome: the upstream fetch either
resolves with a value or rejects. -/
abbrev Fetcher (α : Type) := Except Unit α

/-- `CacheService.revalidateInBackground`, run to completion: skip when
the in-flight marker is set; otherwise set it, invoke the fetcher (the
check, insert and invocation form one synchronous segment of the JS
event loop), store a successful result (a failing store is caught and
logged), and clear the marker in `finally` either way.  Returns
(started, fetch invocations, state). -/
def revalidateInBackground (sizeFn : α → Nat) (now : Int) (key : String)
    (fetcher : Fetcher α) (ttl : Int) (st : CacheServiceState α) :
    Bool × Nat × CacheServiceState α :=
  if key ∈ st.processingKeys then (false, 0, st)
  else
    let stIn := { st with processingKeys := key :: st.processingKeys }
    let stAfter :=
      match fetcher with
      | .ok v => (facadeSet sizeFn now key v ttl false false stIn).2
      | .error _ => stIn
    (true, 1,
     { stAfter with
         processingKeys := stAfter.processingKeys.filter fun k => !(k == key) })

/-- The instrumented result of `getWithSWR`: the returned (or thrown)
value, the number of `fetchFn` invocations, whether a background
revalidation task was started, and the final state. -/
structure SWRResult (α : Type) : Type where
  result : Except Unit α
  fetchCalls : Nat
  revalidationScheduled : Bool
  state : CacheServiceState α

/-- `CacheService.fetchAndCache`: fetch, store, return; on any failure
(of the fetch *or* of the store) fall back to `this.get` and return the
stale value when one is retrievable, otherwise rethrow. -/
def fetchAndCache (sizeFn : α → Nat) (now : Int) (key : String)
    (fetcher : Fetcher α) (ttl : Int) (st : CacheServiceState α) :
    SWRResult α :=
  match fetcher with
  | .ok v =>
    let r := facadeSet sizeFn now key v ttl false false st
    match r.1 with
    | .ok _ => ⟨.ok v, 1, false, r.2⟩
    | .error _ =>
      let g := facadeGet sizeFn now key false false none r.2
      match g.1 with
      | some s => ⟨.ok s, 1, false, g.2⟩
      | none => ⟨.error (), 1, false, g.2⟩
  | .error _ =>
    let g := facadeGet sizeFn now key false false none st
    match g.1 with
    | some s => ⟨.ok s, 1, false, g.2⟩
    | none => ⟨.error (), 1, false, g.2⟩

/-- `CacheService.getWithSWR`: read value and creation time, then the
fresh / stale-revalidate / expired-or-absent trichotomy on
`age = now - createdAt` against `freshTTL * 1000` and `staleTTL * 1000`. -/
def getWithSWR (sizeFn : α → Nat) (now : Int) (key : String)
    (fetcher : Fetcher α) (freshTTL staleTTL : Int)
    (st : CacheServiceState α) : SWRResult α :=
  let md := facadeGetWithMetadata now key st
  match md.1 with
  | some vc =>
    let age := now - vc.2
    if age < freshTTL * 1000 then ⟨.ok vc.1, 0, false, md.2⟩
    else if age < staleTTL * 1000 then
      let r := revalidateInBackground sizeFn now key fetcher freshTTL md.2
      ⟨.ok vc.1, r.2.1, r.1, r.2.2⟩
    else fetchAndCache sizeFn now key fetcher freshTTL md.2
  | none => fetchAndCache sizeFn now key fetcher freshTTL md.2

/-! ### Precomputation engine — src/services/response-precomputer.ts -/

inductive Priority : Type where
  | high
  | medium
  | low
deriving DecidableEq

structure PrecomputedResponse (α : Type) : Type where
  data : α
  headers : List (String × String)
  statusCode : Int
  generatedAt : Int
  etag : String
deriving DecidableEq

/-- `performPrecomputation`: wrap the fetched payload with generated
headers and an ETag (a base64 slice of the serialized payload, which the
embedding abstracts as `etagFn`); a fetch failure is rethrown.  The
model evaluates at the single instant `now`, so `X-Generation-Time`
reads 0ms. -/
def performPrecomputation (etagFn : α → String) (now : Int)
    (fetcher : Fetcher α) (priority : Priority) :
    Except Unit (PrecomputedResponse α) :=
  match fetcher with
  | .error e => .error e
  | .ok data =>
    .ok { data := data
          headers :=
            [("Content-Type", "application/json"),
             ("Cache-Control", "public, max-age=86400, immutable"),
             ("X-Precomputed", "true"),
             ("X-Generation-Time", "0ms"),
             ("ETag", "\"" ++ etagFn data ++ "\""),
             ("X-Priority",
              match priority with
              | .high => "high"
              | .medium => "medium"
              | .low => "low")]
          statusCode := 200
          generatedAt := now
          etag := etagFn data }

/-- `ResponsePrecomputeService.precomputeResponse` run as a single call
(the `processingQueue` interleaving is modelled separately below): on
success, store through the facade under `precomputed: + endpoint` with
TTL `options.ttl || (priority high ? 86400 : 3600)`; a failing store
propagates. -/
def precomputeResponse (szF : PrecomputedResponse α → Nat)
    (etagFn : α → String) (now : Int) (endpoint : String)
    (fetcher : Fetcher α) (priority : Priority) (ttlOpt : Option Int)
    (st : CacheServiceState (PrecomputedResponse α)) :
    Except Unit (PrecomputedResponse α) ×
      CacheServiceState (PrecomputedResponse α) :=
  match performPrecomputation etagFn now fetcher priority with
  | .error e => (.error e, st)
  | .ok resp =>
    let ttl := jsOr ttlOpt (if priority = Priority.high then 86400 else 3600)
    let r := facadeSet szF now ("precomputed:" ++ endpoint) resp ttl
      false false st
    match r.1 with
    | .ok _ => (.ok resp, r.2)
    | .error _ => (.error (), r.2)

/-- `ResponsePrecomputeService.getPrecomputed`: a facade `get` of
`precomputed: + endpoint` with default options. -/
def getPrecomputed (szF : PrecomputedResponse α → Nat) (now : Int)
    (endpoint : String) (st : CacheServiceState (PrecomputedResponse α)) :
    Option (PrecomputedResponse α) ×
      CacheServiceState (PrecomputedResponse α) :=
  facadeGet szF now ("precomputed:" ++ endpoint) false false none st

/-- The fixed pattern list of
`ResponsePrecomputeService.invalidateProperty`. -/
def invalidatePropertyPatterns (propref : String) : List String :=
  ["precomputed:properties/" ++ propref,
   "precomputed:properties/featured",
   "precomputed:properties?*"]

/-- `ResponsePrecomputeService.invalidateProperty`: invalidate each of
the three fixed patterns through the facade, summing the counts. -/
def invalidateProperty (propref : String) (st : CacheServiceState α) :
    Nat × CacheServiceState α :=
  (invalidatePropertyPatterns propref).foldl
    (fun acc p =>
      let r := facadeInvalidatePattern p acc.2
      (acc.1 + r.1, r.2))
    (0, st)

/-- Modelled from the spec (§4.4): the repository has no
`invalidateWithDependencies` and no dependency adjacency map; this
definition follows the spec's words — a traversal from the start key
over the adjacency map accumulating the transitive closure into a
visited set, membership-checked before recursing — and exists only to be
compared with what `invalidateProperty` actually does. -/
def specDependencyClosure (adj : List (String × List String)) :
    Nat → List String → List String → List String
  | 0, visited, _ => visited
  | _ + 1, visited, [] => visited
  | fuel + 1, visited, k :: stack =>
    if k ∈ visited then specDependencyClosure adj fuel visited stack
    else
      specDependencyClosure adj fuel (visited ++ [k])
        (((adj.find? fun e => e.1 == k).map fun e => e.2).getD [] ++ stack)

/-- The transitive closure of `start` under the declared edges, with
enough fuel for any terminating traversal of the concrete maps the
claims mention. -/
def specClosure (adj : List (String × List String)) (start : String) :
    List String :=
  specDependencyClosure adj
    ((adj.foldl (fun n e => n + 1 + e.2.length) 1) * 2) [] [start]

/-! ### In-flight deduplication as an interleaving model

`revalidateInBackground` (cache-service.ts) and `precomputeResponse`
(response-precomputer.ts) both guard a background computation with a
process-local in-flight marker.  In the JS event loop the
has-check, the insertion and the invocation of the fetch form one
synchronous segment — no `await` separates them — so they are a single
atomic step relative to every other task; the marker is cleared in a
`finally`, whether the fetch succeeded or failed.  The model runs `n`
tasks for one key: each task atomically enters (returning early if the
marker is held, otherwise setting it and invoking the fetch) and later
finishes (clearing the marker). -/

structure DedupState : Type where
  marker : Bool
  fetchCount : Nat
  pending : Nat
  inflight : Nat
  finished : Nat
deriving DecidableEq

inductive DedupAct : Type where
  | enter
  | finish (ok : Bool)
deriving DecidableEq

def DedupAct.isEnter : DedupAct → Bool
  | .enter => true
  | .finish _ => false

def dedupInit (n : Nat) : DedupState :=
  { marker := false, fetchCount := 0, pending := n, inflight := 0,
    finished := 0 }

/-- One atomic step of `revalidateInBackground` for a fixed key: `enter`
is `processingKeys.has` / `processingKeys.add` / `fetcher()` as one
synchronous segment; `finish` is the resolution of the fetch (storing on
success, logging on failure) followed by the `finally` removal of the
marker. -/
def revalStep (s : DedupState) : DedupAct → Option DedupState
  | .enter =>
    if s.pending = 0 then none
    else if s.marker then
      some { s with pending := s.pending - 1, finished := s.finished + 1 }
    else
      some { s with pending := s.pending - 1, marker := true,
                    fetchCount := s.fetchCount + 1,
                    inflight := s.inflight + 1 }
  | .finish _ =>
    if s.inflight = 0 then none
    else
      some { s with inflight := s.inflight - 1, marker := false,
                    finished := s.finished + 1 }

def runReval : DedupState → List DedupAct → Option DedupState
  | s, [] => some s
  | s, a :: as =>
    match revalStep s a with
    | none => none
    | some s1 => runReval s1 as

/-- One atomic step of `precomputeResponse`'s queue for a fixed
endpoint: `enter` is `processingQueue.has` / `processingQueue.set` /
starting `performPrecomputation` as one synchronous segment (a held
marker makes the caller await the existing promise instead of computing);
`finish` is the `finally` deletion after the computation settles either
way. -/
def precompStep (s : DedupState) : DedupAct → Option DedupState
  | .enter =>
    if s.pending = 0 then none
    else if s.marker then
      some { s with pending := s.pending - 1, finished := s.finished + 1 }
    else
      some { s with pending := s.pending - 1, marker := true,
                    fetchCount := s.fetchCount + 1,
                    inflight := s.inflight + 1 }
  | .finish _ =>
    if s.inflight = 0 then none
    else
      some { s with inflight := s.inflight - 1, marker := false,
                    finished := s.finished + 1 }

def runPrecomp : DedupState → List DedupAct → Option DedupState
  | s, [] => some s
  | s, a :: as =>
    match precompStep s a with
    | none => none
    | some s1 => runPrecomp s1 as

/-! ### Concrete fixtures used by witnesses and counterexamples -/

/-- A trivial size function standing in for `calculateSize` on `Nat`
payloads. -/
def szNat : Nat → Nat := fun _ => 0

/-- A fresh local cache with the singleton's configuration
(`new MemoryCache(1000, 300000)`). -/
def emptyMemNat : MemoryCache Nat :=
  { cache := [], maxSize := 1000, defaultTTL := 300000, hitCount := 0,
    missCount := 0, evictionCount := 0 }

def mkEntryNat (v : Nat) (la ca ea : Int) : MemEntry Nat :=
  { value := v, expiresAt := ea, lastAccessed := la, createdAt := ca,
    size := 0, hitCount := 0 }

def redisUpNat : RedisCache Nat :=
  { store := [], available := true, hitCount := 0, missCount := 0 }

def redisDownNat : RedisCache Nat :=
  { store := [], available := false, hitCount := 0, missCount := 0 }

/-- A facade state with both tiers empty and the distributed tier up. -/
def facadeUpNat : CacheServiceState Nat :=
  { memory := emptyMemNat, redis := redisUpNat, processingKeys := [],
    memoryHits := 0, redisHits := 0, misses := 0, log := [] }

/-- A facade state with the distributed tier fully unavailable. -/
def facadeDownNat : CacheServiceState Nat :=
  { facadeUpNat with redis := redisDownNat }

def szResp : PrecomputedResponse Nat → Nat := fun _ => 0

def respNat : PrecomputedResponse Nat :=
  { data := 5, headers := [], statusCode := 200, generatedAt := 0,
    etag := "" }

/-- A facade state over precomputed responses whose L2 holds
`precomputed:e` while L1 is empty. -/
def facadePrecompNat : CacheServiceState (PrecomputedResponse Nat) :=
  { memory := { cache := [], maxSize := 1000, defaultTTL := 300000,
                hitCount := 0, missCount := 0, evictionCount := 0 },
    redis := { store := [("lm:precomputed:e",
                 { value := respNat, expiresAt := 99999, createdAt := 0,
                   key := "lm:precomputed:e" })],
               available := true, hitCount := 0, missCount := 0 },
    processingKeys := [], memoryHits := 0, redisHits := 0, misses := 0,
    log := [] }

/-- A full one-slot cache whose only entry was touched at instant 5 —
the C4 scenario of a `set` arriving within the same millisecond. -/
def c4CacheNat : MemoryCache Nat :=
  { emptyMemNat with maxSize := 1, cache := [("a", mkEntryNat 1 5 5 99999)] }

/-- A facade state whose L1 holds an entry for `k` created exactly at
instant 1000000 and expiring at 1600000. -/
def c1StateNat : CacheServiceState Nat :=
  { facadeUpNat with memory :=
      { emptyMemNat with cache :=
          [("k", mkEntryNat 7 1000000 1000000 1600000)] } }

/-- Stored keys exercising the delimiter-boundary cases of
`invalidatePattern("a:b:*")`. -/
def c6CacheNat : MemoryCache Nat :=
  { emptyMemNat with cache :=
      [("a:b:1", mkEntryNat 1 0 0 9), ("a:y", mkEntryNat 2 0 0 9),
       ("a:bc:x", mkEntryNat 3 0 0 9), ("a:x:a:b:1", mkEntryNat 4 0 0 9)] }

/-- A single stored key containing `a:b:` only as an inner substring. -/
def c10CacheNat : MemoryCache Nat :=
  { emptyMemNat with cache := [("x:a:b:1", mkEntryNat 1 0 0 9)] }

/-! ### Helper lemmas: association-list maps -/

theorem mapHas_eq_false_iff {β : Type} (l : List (String × β)) (k : String) :
    mapHas l k = false ↔ ∀ kv ∈ l, kv.1 ≠ k := by
  simp [mapHas]

theorem mapHas_cons_tail {β : Type} (a : String × β) (t : List (String × β))
    (k : String) (h : mapHas (a :: t) k = true) (hk : a.1 ≠ k) :
    mapHas t k = true := by
  have ha : (a.1 == k) = false := by simpa using hk
  simpa [mapHas, List.any_cons, ha] using h

theorem find_replace_of_mapHas {β : Type} (k : String) (v : β) :
    ∀ l : List (String × β), mapHas l k = true →
      ((l.map fun kv => if kv.1 == k then (k, v) else kv).find?
        fun kv => kv.1 == k) = some (k, v) := by
  intro l
  induction l with
  | nil => simp [mapHas]
  | cons a t ih =>
    intro h
    rw [List.map_cons]
    by_cases hk : a.1 = k
    · rw [if_pos (by simpa using hk), List.find?_cons_of_pos _ (by simp)]
    · rw [if_neg (by simpa using hk),
        List.find?_cons_of_neg _ (by simpa using hk)]
      exact ih (mapHas_cons_tail a t k h hk)

theorem find_append_single_of_none {β : Type} (k k' : String) (v : β)
    (h : k' ≠ k) :
    ∀ l : List (String × β),
      ((l ++ [(k, v)]).find? fun kv => kv.1 == k') =
        l.find? fun kv => kv.1 == k' := by
  intro l
  induction l with
  | nil =>
    simp only [List.nil_append]
    rw [List.find?_cons_of_neg _ (by simpa using fun hc : k = k' => h hc.symm)]
  | cons a t ih =>
    by_cases hk : a.1 = k'
    · rw [List.cons_append, List.find?_cons_of_pos _ (by simpa using hk),
        List.find?_cons_of_pos _ (by simpa using hk)]
    · rw [List.cons_append, List.find?_cons_of_neg _ (by simpa using hk),
        List.find?_cons_of_neg _ (by simpa using hk), ih]

theorem find_append_self_of_fresh {β : Type} (k : String) (v : β) :
    ∀ l : List (String × β), (∀ kv ∈ l, kv.1 ≠ k) →
      ((l ++ [(k, v)]).find? fun kv => kv.1 == k) = some (k, v) := by
  intro l
  induction l with
  | nil =>
    intro _
    simp only [List.nil_append]
    rw [List.find?_cons_of_pos _ (by simp)]
  | cons a t ih =>
    intro hall
    have ha : a.1 ≠ k := hall a (by simp)
    rw [List.cons_append, List.find?_cons_of_neg _ (by simpa using ha)]
    exact ih fun x hx => hall x (by simp [hx])

theorem mapLookup_mapSet_self {β : Type} (l : List (String × β)) (k : String)
    (v : β) : mapLookup (mapSet l k v) k = some v := by
  unfold mapSet
  by_cases h : mapHas l k = true
  · simp only [h, if_true, mapLookup, find_replace_of_mapHas k v l h]
    rfl
  · have hf : mapHas l k = false := by simpa using h
    have hall : ∀ kv ∈ l, kv.1 ≠ k := (mapHas_eq_false_iff l k).mp hf
    simp only [hf, Bool.false_eq_true, if_false, mapLookup,
      find_append_self_of_fresh k v l hall]
    rfl

theorem find_ne_map_replace {β : Type} (k k' : String) (v : β) (h : k' ≠ k) :
    ∀ l : List (String × β),
      ((l.map fun kv => if kv.1 == k then (k, v) else kv).find?
        fun kv => kv.1 == k') = l.find? fun kv => kv.1 == k' := by
  intro l
  induction l with
  | nil => simp
  | cons a t ih =>
    rw [List.map_cons]
    by_cases hk : a.1 = k
    · rw [if_pos (by simpa using hk),
        List.find?_cons_of_neg _ (by simpa using fun hc : k = k' => h hc.symm),
        List.find?_cons_of_neg _
          (by simpa using fun hc : a.1 = k' => h (hk ▸ hc).symm), ih]
    · rw [if_neg (by simpa using hk)]
      by_cases hk' : a.1 = k'
      · rw [List.find?_cons_of_pos _ (by simpa using hk'),
          List.find?_cons_of_pos _ (by simpa using hk')]
      · rw [List.find?_cons_of_neg _ (by simpa using hk'),
          List.find?_cons_of_neg _ (by simpa using hk'), ih]

theorem mapLookup_mapSet_ne {β : Type} (l : List (String × β)) (k k' : String)
    (v : β) (h : k' ≠ k) : mapLookup (mapSet l k v) k' = mapLookup l k' := by
  unfold mapSet
  by_cases hh : mapHas l k = true
  · simp only [hh, if_true, mapLookup, find_ne_map_replace k k' v h l]
  · have hf : mapHas l k = false := by simpa using hh
    simp only [hf, Bool.false_eq_true, if_false, mapLookup,
      find_append_single_of_none k k' v h l]

theorem mapLookup_mapDelete_ne {β : Type} (l : List (String × β))
    (k k' : String) (h : k' ≠ k) :
    mapLookup (mapDelete l k) k' = mapLookup l k' := by
  unfold mapDelete mapLookup
  congr 1
  induction l with
  | nil => simp
  | cons a t ih =>
    by_cases hk : a.1 = k
    · rw [List.filter_cons_of_neg (by simpa using hk),
        List.find?_cons_of_neg _
          (by simpa using fun hc : a.1 = k' => h (hk ▸ hc).symm), ih]
    · rw [List.filter_cons_of_pos (by simpa using hk)]
      by_cases hk' : a.1 = k'
      · rw [List.find?_cons_of_pos _ (by simpa using hk'),
          List.find?_cons_of_pos _ (by simpa using hk')]
      · rw [List.find?_cons_of_neg _ (by simpa using hk'),
          List.find?_cons_of_neg _ (by simpa using hk'), ih]

theorem mapLookup_mapDelete_self {β : Type} (l : List (String × β))
    (k : String) : mapLookup (mapDelete l k) k = none := by
  unfold mapDelete mapLookup
  rw [List.find?_eq_none.mpr]
  · rfl
  · intro x hx
    have := List.of_mem_filter hx
    simpa using this

theorem mapHas_mapDelete_self {β : Type} (l : List (String × β))
    (k : String) : mapHas (mapDelete l k) k = false := by
  unfold mapDelete mapHas
  rw [Bool.eq_false_iff]
  intro hc
  rcases List.any_eq_true.mp hc with ⟨x, hx, hxk⟩
  have := List.of_mem_filter hx
  simp only [Bool.not_eq_true'] at this
  rw [this] at hxk
  exact Bool.false_ne_true hxk

theorem mapDelete_length_of_mem {β : Type} (l : List (String × β))
    (k : String) (hnd : (l.map Prod.fst).Nodup) (hmem : mapHas l k = true) :
    (mapDelete l k).length + 1 = l.length := by
  unfold mapDelete
  induction l with
  | nil => simp [mapHas] at hmem
  | cons a t ih =>
    have hnd' : (t.map Prod.fst).Nodup := (List.nodup_cons.mp hnd).2
    by_cases hk : a.1 = k
    · have hfilter : (t.filter fun kv => !(kv.1 == k)) = t := by
        apply List.filter_eq_self.mpr
        intro x hx
        have : ¬(x.1 = k) := fun hc =>
          (List.nodup_cons.mp hnd).1
            (hk ▸ hc ▸ List.mem_map_of_mem Prod.fst hx)
        simpa using this
      rw [List.filter_cons_of_neg (by simpa using hk), hfilter]
      simp
    · rw [List.filter_cons_of_pos (by simpa using hk)]
      have := ih hnd' (mapHas_cons_tail a t k hmem hk)
      simpa using this

/-! ### C8 — set-then-get on the local cache -/

/-- C8 counterexample: the claim quantifies over *every* ttl, but
`set(k, v, -1000)` stores an entry whose `expiresAt` is already in the
past, so the immediate `get(k)` deletes it and returns null, not `v`. -/
theorem c8_counterexample :
    (memGet 0 "k" (memSet szNat 0 "k" 42 (some (-1000)) emptyMemNat)).1 =
      none := by
  decide

/-- C8 (amended): for every nonnegative ttl — with an omitted or zero
ttl falling back to the (nonnegative) default TTL — `set(k, v, ttl)`
immediately followed by `get(k)` at the same instant returns `v`. -/
theorem c8_set_then_get (sizeFn : α → Nat) (st : MemoryCache α) (now : Int)
    (key : String) (v : α) (ttl : Option Int) (hd : 0 ≤ st.defaultTTL)
    (ht : ∀ t, ttl = some t → 0 ≤ t) :
    (memGet now key (memSet sizeFn now key v ttl st)).1 = some v := by
  have hjs : 0 ≤ jsOr ttl st.defaultTTL := by
    cases ttl with
    | none => simpa [jsOr] using hd
    | some t =>
      by_cases h0 : t = 0
      · simpa [jsOr, h0] using hd
      · simpa [jsOr, h0] using ht t rfl
  have hexp : ¬(now > now + jsOr ttl st.defaultTTL) := by omega
  simp [memSet, memGet, mapLookup_mapSet_self, hexp]

/-- C8 witness: the amended theorem applied at a concrete input. -/
theorem c8_set_then_get_witness :
    (0 ≤ (emptyMemNat.defaultTTL : Int)) ∧
      (memGet 0 "k" (memSet szNat 0 "k" 42 (some 5000) emptyMemNat)).1 =
        some 42 :=
  ⟨by decide,
   c8_set_then_get szNat emptyMemNat 0 "k" 42 (some 5000) (by decide)
     (by intro t h; cases h; decide)⟩

/-! ### C4 — bounded capacity and LRU eviction -/

theorem mapHas_mapDelete_of_false {β : Type} (l : List (String × β))
    (k k2 : String) (h : mapHas l k = false) :
    mapHas (mapDelete l k2) k = false := by
  rw [mapHas_eq_false_iff] at h ⊢
  intro kv hkv
  exact h kv (List.mem_of_mem_filter hkv)

theorem lruScan_le_init :
    ∀ (l : List (String × MemEntry α)) (acc : String × Int),
      (l.foldl lruScanStep acc).2 ≤ acc.2 := by
  intro l
  induction l with
  | nil => intro acc; exact le_refl _
  | cons a t ih =>
    intro acc
    refine le_trans (ih (lruScanStep acc a)) ?_
    unfold lruScanStep
    by_cases h : a.2.lastAccessed < acc.2
    · simpa [h] using le_of_lt h
    · simp [h]

theorem lruScan_le_mem :
    ∀ (l : List (String × MemEntry α)) (acc : String × Int)
      (kv : String × MemEntry α), kv ∈ l →
      (l.foldl lruScanStep acc).2 ≤ kv.2.lastAccessed := by
  intro l
  induction l with
  | nil => intro acc kv h; exact absurd h (List.not_mem_nil kv)
  | cons a t ih =>
    intro acc kv h
    rcases List.mem_cons.mp h with h1 | h2
    · subst h1
      refine le_trans (lruScan_le_init t (lruScanStep acc kv)) ?_
      unfold lruScanStep
      by_cases hlt : kv.2.lastAccessed < acc.2
      · simp [hlt]
      · simpa [hlt] using le_of_not_lt hlt
    · exact ih (lruScanStep acc a) kv h2

theorem lruScan_picked :
    ∀ (l : List (String × MemEntry α)) (acc : String × Int),
      l.foldl lruScanStep acc = acc ∨
        ∃ kv ∈ l, l.foldl lruScanStep acc = (kv.1, kv.2.lastAccessed) := by
  intro l
  induction l with
  | nil => intro acc; exact Or.inl rfl
  | cons a t ih =>
    intro acc
    rcases ih (lruScanStep acc a) with h | ⟨kv, hkv, heq⟩
    · unfold lruScanStep at h
      by_cases hlt : a.2.lastAccessed < acc.2
      · refine Or.inr ⟨a, by simp, ?_⟩
        simpa [List.foldl_cons, lruScanStep, hlt] using h
      · refine Or.inl ?_
        simpa [List.foldl_cons, lruScanStep, hlt] using h
    · exact Or.inr ⟨kv, by simp [hkv], by simpa [List.foldl_cons] using heq⟩

theorem lruScan_strict (l : List (String × MemEntry α)) (acc : String × Int)
    (h : ∃ kv ∈ l, kv.2.lastAccessed < acc.2) :
    ∃ kv ∈ l, l.foldl lruScanStep acc = (kv.1, kv.2.lastAccessed) := by
  rcases lruScan_picked l acc with heq | hp
  · rcases h with ⟨kv, hkv, hlt⟩
    have := lruScan_le_mem l acc kv hkv
    rw [heq] at this
    exact absurd (lt_of_le_of_lt this hlt) (lt_irrefl _)
  · exact hp

/-- C4 counterexample: a full one-slot cache whose single entry has
`lastAccessed = now` defeats the eviction scan (it starts at
`oldestTime = Date.now()` with a strict comparison), so a `set` of a new
key in the same millisecond inserts without evicting and the size
exceeds `maxSize`. -/
theorem c4_counterexample :
    c4CacheNat.cache.length = c4CacheNat.maxSize ∧
      mapHas c4CacheNat.cache "b" = false ∧
      c4CacheNat.maxSize = 1 ∧
      (memSet szNat 5 "b" 2 (some 1000) c4CacheNat).cache.length = 2 := by
  decide

/-- C4 (amended): when the cache is full, the new key is absent, keys
are unique and nonempty, and some entry was last accessed strictly
before `now`, a `set` evicts an entry with minimal `lastAccessed` and
the size stays at `maxSize`; only when every entry's `lastAccessed`
equals the current instant (or the selected key is the empty string) can
the bound be exceeded, as the counterexample shows. -/
theorem c4_eviction_bound (sizeFn : α → Nat) (st : MemoryCache α)
    (now : Int) (key : String) (v : α) (ttl : Option Int)
    (hfull : st.cache.length = st.maxSize)
    (hnew : mapHas st.cache key = false)
    (hnd : (st.cache.map Prod.fst).Nodup)
    (hold : ∃ kv ∈ st.cache, kv.2.lastAccessed < now)
    (hne : ∀ kv ∈ st.cache, kv.1 ≠ "") :
    (memSet sizeFn now key v ttl st).cache.length = st.maxSize ∧
      ∃ kv ∈ st.cache,
        (∀ kv2 ∈ st.cache, kv.2.lastAccessed ≤ kv2.2.lastAccessed) ∧
        mapHas (memSet sizeFn now key v ttl st).cache kv.1 = false := by
  rcases lruScan_strict st.cache ("", now) hold with ⟨kv, hkv, hsc⟩
  have hkvne : kv.1 ≠ "" := hne kv hkv
  have hkvhas : mapHas st.cache kv.1 = true :=
    List.any_eq_true.mpr ⟨kv, hkv, by simp⟩
  have hkvkey : kv.1 ≠ key := by
    intro hc
    rw [mapHas_eq_false_iff] at hnew
    exact hnew kv hkv hc
  have hcond : st.maxSize ≤ st.cache.length ∧ mapHas st.cache key = false :=
    ⟨le_of_eq hfull.symm, hnew⟩
  have hevict : evictLRU now st =
      { st with cache := mapDelete st.cache kv.1,
                evictionCount := st.evictionCount + 1 } := by
    unfold evictLRU
    rw [hsc]
    simp [hkvne]
  have hdellen : (mapDelete st.cache kv.1).length + 1 = st.cache.length :=
    mapDelete_length_of_mem st.cache kv.1 hnd hkvhas
  have hdelnew : mapHas (mapDelete st.cache kv.1) key = false :=
    mapHas_mapDelete_of_false st.cache key kv.1 hnew
  have hset : (memSet sizeFn now key v ttl st).cache =
      mapDelete st.cache kv.1 ++
        [(key, { value := v, expiresAt := now + jsOr ttl st.defaultTTL,
                 lastAccessed := now, createdAt := now, size := sizeFn v,
                 hitCount := 0 })] := by
    unfold memSet
    simp only [hcond.1, hcond.2, and_self, if_true, hevict]
    unfold mapSet
    simp [hdelnew]
  constructor
  · rw [hset, List.length_append]
    simp only [List.length_cons, List.length_nil]
    omega
  · refine ⟨kv, hkv, ?_, ?_⟩
    · intro kv2 hkv2
      have := lruScan_le_mem st.cache ("", now) kv2 hkv2
      rw [hsc] at this
      exact this
    · rw [hset]
      unfold mapHas
      rw [List.any_append]
      have h1 : mapHas (mapDelete st.cache kv.1) kv.1 = false :=
        mapHas_mapDelete_self st.cache kv.1
      unfold mapHas at h1
      rw [h1]
      simp
      exact fun hc => hkvkey hc.symm

/-- C4 witness: the amended theorem applied at a concrete input. -/
theorem c4_eviction_bound_witness :
    (c4CacheNat.cache.length = c4CacheNat.maxSize) ∧
      (memSet szNat 6 "b" 2 (some 1000) c4CacheNat).cache.length =
        c4CacheNat.maxSize :=
  ⟨by decide,
   (c4_eviction_bound szNat c4CacheNat 6 "b" 2 (some 1000) (by decide)
      (by decide) (by decide)
      ⟨("a", mkEntryNat 1 5 5 99999), by decide, by decide⟩
      (by decide)).1⟩

/-! ### C6 and C10 — glob invalidation on the local cache -/

theorem prefix_isInfix {γ : Type} {l1 l2 : List γ} (h : l1 <+: l2) :
    l1 <:+: l2 := by
  rcases h with ⟨t, ht⟩
  exact ⟨[], t, by simpa using ht⟩

theorem filter_length_split {γ : Type} (p : γ → Bool) :
    ∀ l : List γ,
      (l.filter p).length + (l.filter fun a => !p a).length = l.length := by
  intro l
  induction l with
  | nil => rfl
  | cons a t ih =>
    by_cases h : p a = true
    · rw [List.filter_cons_of_pos h,
        List.filter_cons_of_neg (by simpa using h)]
      simp only [List.length_cons]
      omega
    · rw [List.filter_cons_of_neg (by simpa using h),
        List.filter_cons_of_pos (by simpa using h)]
      simp only [List.length_cons]
      omega

theorem matchesFrom_star (s : List Char) :
    matchesFrom [RTok.star] s = true := by
  cases s with
  | nil => simp [matchesFrom, suffixAny]
  | cons x xs => simp [matchesFrom, suffixAny]

theorem matchesFrom_litsStar :
    ∀ (L : List Char) (s : List Char),
      matchesFrom (L.map RTok.lit ++ [RTok.star]) s = true ↔ L <+: s := by
  intro L
  induction L with
  | nil =>
    intro s
    simp [matchesFrom_star, List.nil_prefix]
  | cons c L ih =>
    intro s
    cases s with
    | nil => simp [matchesFrom]
    | cons x xs =>
      simp only [List.map_cons, List.cons_append, matchesFrom,
        Bool.and_eq_true, beq_iff_eq, List.cons_prefix_cons]
      constructor
      · rintro ⟨h1, h2⟩
        exact ⟨h1.symm, (ih xs).mp (by simpa using h2)⟩
      · rintro ⟨h1, h2⟩
        exact ⟨h1.symm, by simpa using (ih xs).mpr h2⟩

theorem regexTest_litsStar (L : List Char) :
    ∀ s : List Char,
      regexTest (L.map RTok.lit ++ [RTok.star]) s = true ↔ L <:+: s := by
  intro s
  induction s with
  | nil =>
    simp only [regexTest, suffixAny, matchesFrom_litsStar]
    constructor
    · intro h
      exact prefix_isInfix h
    · intro h
      have : L = [] := List.eq_nil_of_infix_nil h
      simp [this]
  | cons x xs ih =>
    simp only [regexTest, suffixAny] at ih ⊢
    simp only [Bool.or_eq_true, matchesFrom_litsStar, ih,
      List.infix_cons_iff]

/-- Unanchored matching of the compiled `a:b:*` regex is exactly
substring containment of `a:b:`. -/
theorem regexTest_ab (s : List Char) :
    regexTest [RTok.lit 'a', RTok.lit ':', RTok.lit 'b', RTok.lit ':',
      RTok.star] s = true ↔ ['a', ':', 'b', ':'] <:+: s := by
  simpa using regexTest_litsStar ['a', ':', 'b', ':'] s

/-- The compiled form of the pattern `a:b:*`. -/
theorem compileRegex_abStar :
    compileRegex "a:b:*".data =
      some [RTok.lit 'a', RTok.lit ':', RTok.lit 'b', RTok.lit ':',
        RTok.star] := by
  decide

/-- C6 counterexample: the stored key `a:x:a:b:1` has prefix `a:` and
not prefix `a:b:`, yet `invalidatePattern("a:b:*")` removes it (the
regex is unanchored), and the returned count is 2, not 1. -/
theorem c6_counterexample :
    ("a:".data <+: "a:x:a:b:1".data) ∧
      ¬("a:b:".data <+: "a:x:a:b:1".data) ∧
      ((memInvalidatePattern "a:b:*" c6CacheNat).map fun r =>
        (r.1, mapHas r.2.cache "a:x:a:b:1", mapHas r.2.cache "a:y",
         mapHas r.2.cache "a:bc:x", mapHas r.2.cache "a:b:1")) =
        some (2, false, true, true, false) := by
  decide

/-- C6 (amended): `invalidatePattern("a:b:*")` removes exactly the keys
that contain `a:b:` as a substring — in particular every key with
prefix `a:b:`, but also keys such as `a:x:a:b:1` whose prefix is only
`a:` — keeps every key not containing `a:b:` (such as `a:y` and
`a:bc:x`), and returns the exact number of keys removed. -/
theorem c6_invalidate_boundary (st : MemoryCache α) :
    ∃ n st2, memInvalidatePattern "a:b:*" st = some (n, st2) ∧
      (∀ kv ∈ st.cache, "a:b:".data <+: kv.1.data → kv ∉ st2.cache) ∧
      (∀ kv ∈ st.cache, ¬("a:b:".data <:+: kv.1.data) → kv ∈ st2.cache) ∧
      (∀ kv ∈ st2.cache, kv ∈ st.cache ∧ ¬("a:b:".data <:+: kv.1.data)) ∧
      n + st2.cache.length = st.cache.length := by
  have habd : ("a:b:".data : List Char) = ['a', ':', 'b', ':'] := by decide
  unfold memInvalidatePattern
  rw [compileRegex_abStar]
  simp only [Option.map_some]
  refine ⟨_, _, rfl, ?_, ?_, ?_, ?_⟩
  · intro kv hkv hpre hmem
    have hf := List.of_mem_filter hmem
    rw [Bool.not_eq_eq_eq_not, Bool.not_true] at hf
    have htest := (regexTest_ab kv.1.data).mpr (prefix_isInfix (habd ▸ hpre))
    rw [htest] at hf
    exact absurd hf (by simp)
  · intro kv hkv hninf
    refine List.mem_filter.mpr ⟨hkv, ?_⟩
    have htest : regexTest [RTok.lit 'a', RTok.lit ':', RTok.lit 'b',
        RTok.lit ':', RTok.star] kv.1.data = false := by
      rw [Bool.eq_false_iff]
      intro hc
      exact hninf (habd ▸ (regexTest_ab kv.1.data).mp hc)
    simp [htest]
  · intro kv hkv
    refine ⟨List.mem_of_mem_filter hkv, ?_⟩
    have hf := List.of_mem_filter hkv
    rw [Bool.not_eq_eq_eq_not, Bool.not_true] at hf
    intro hc
    have htest := (regexTest_ab kv.1.data).mpr (habd ▸ hc)
    rw [htest] at hf
    exact absurd hf (by simp)
  · exact filter_length_split _ st.cache

/-- C6 witness: the amended theorem applied at the concrete
boundary-case cache. -/
theorem c6_invalidate_boundary_witness :
    ∃ n st2, memInvalidatePattern "a:b:*" c6CacheNat = some (n, st2) ∧
      (∀ kv ∈ c6CacheNat.cache, "a:b:".data <+: kv.1.data →
        kv ∉ st2.cache) ∧
      (∀ kv ∈ c6CacheNat.cache, ¬("a:b:".data <:+: kv.1.data) →
        kv ∈ st2.cache) ∧
      (∀ kv ∈ st2.cache, kv ∈ c6CacheNat.cache ∧
        ¬("a:b:".data <:+: kv.1.data)) ∧
      n + st2.cache.length = c6CacheNat.cache.length :=
  c6_invalidate_boundary c6CacheNat

/-- C10: a stored key that contains the pattern's literal part `a:b:`
only as an inner substring (not as a prefix) is still removed by
`invalidatePattern("a:b:*")` and counted, because the glob is converted
to an unanchored regular expression. -/
theorem c10_unanchored_removal (st : MemoryCache α) (k : String)
    (hmem : mapHas st.cache k = true)
    (_hnpre : ¬("a:b:".data <+: k.data))
    (hinf : "a:b:".data <:+: k.data) :
    ∃ n st2, memInvalidatePattern "a:b:*" st = some (n, st2) ∧
      mapHas st2.cache k = false ∧ 1 ≤ n := by
  have habd : ("a:b:".data : List Char) = ['a', ':', 'b', ':'] := by decide
  unfold memInvalidatePattern
  rw [compileRegex_abStar]
  refine ⟨_, _, rfl, ?_, ?_⟩
  · rw [Bool.eq_false_iff]
    intro hc
    rcases List.any_eq_true.mp hc with ⟨kv, hkv, hk⟩
    have hkeq : kv.1 = k := by simpa using hk
    have hf := List.of_mem_filter hkv
    rw [Bool.not_eq_eq_eq_not, Bool.not_true] at hf
    have htest : regexTest [RTok.lit 'a', RTok.lit ':', RTok.lit 'b',
        RTok.lit ':', RTok.star] kv.1.data = true := by
      rw [regexTest_ab, hkeq]
      exact habd ▸ hinf
    rw [htest] at hf
    exact absurd hf (by simp)
  · rcases List.any_eq_true.mp hmem with ⟨kv, hkv, hk⟩
    have hkeq : kv.1 = k := by simpa using hk
    have htest : regexTest [RTok.lit 'a', RTok.lit ':', RTok.lit 'b',
        RTok.lit ':', RTok.star] kv.1.data = true := by
      rw [regexTest_ab, hkeq]
      exact habd ▸ hinf
    have hmemf : kv ∈ st.cache.filter fun kv2 =>
        regexTest [RTok.lit 'a', RTok.lit ':', RTok.lit 'b', RTok.lit ':',
          RTok.star] kv2.1.data := List.mem_filter.mpr ⟨hkv, htest⟩
    have hpos : 0 < (st.cache.filter fun kv2 =>
        regexTest [RTok.lit 'a', RTok.lit ':', RTok.lit 'b', RTok.lit ':',
          RTok.star] kv2.1.data).length :=
      List.length_pos.mpr (List.ne_nil_of_mem hmemf)
    omega

/-- C10 witness: the theorem applied at the claim's example key
`x:a:b:1`. -/
theorem c10_unanchored_removal_witness :
    ∃ n st2, memInvalidatePattern "a:b:*" c10CacheNat = some (n, st2) ∧
      mapHas st2.cache "x:a:b:1" = false ∧ 1 ≤ n :=
  c10_unanchored_removal c10CacheNat "x:a:b:1" (by decide) (by decide)
    (by decide)

/-! ### C2 — degradation of the shared tier under transport failure -/

/-- C2 counterexample: with the distributed tier unavailable,
`RedisCache.set` rethrows its transport error instead of degrading to a
no-op, and `CacheService.set` rethrows in turn — so the facade `set`
does throw. -/
theorem c2_counterexample :
    redisSet 0 "k" (7 : Nat) 300 redisDownNat = .error () ∧
      (facadeSet szNat 0 "k" 7 300 false false facadeDownNat).1 =
        .error () :=
  ⟨rfl, rfl⟩

/-- C2 (amended): with the distributed tier unavailable, `get`,
`delete`, `has`, `getMultiple` and `invalidatePattern` of the L2 client
absorb the failure and degrade to a miss result (null, false, empty
map, zero) without touching the store, and the facade `get` (on an L1
miss) returns empty without throwing; but `set` and `setMultiple` log
and rethrow, and the facade `set` therefore propagates the failure
(after its L1 write). -/
theorem c2_l2_unavailable_degrades (sizeFn : α → Nat)
    (st : CacheServiceState α) (now : Int) (key : String) (v : α)
    (ttl : Int) (keys : List String) (p : String)
    (entries : List (String × α × Option Int))
    (h : st.redis.available = false)
    (hmiss : (memGet now key st.memory).1 = none) :
    redisGet now key st.redis =
      (none, { st.redis with missCount := st.redis.missCount + 1 }) ∧
      redisDelete key st.redis = (false, st.redis) ∧
      redisHas key st.redis = (false, st.redis) ∧
      redisGetMultiple now keys st.redis = ([], st.redis) ∧
      redisInvalidatePattern p st.redis = (0, st.redis) ∧
      redisSet now key v ttl st.redis = .error () ∧
      redisSetMultiple now entries st.redis = .error () ∧
      (facadeGet sizeFn now key false false none st).1 = none ∧
      (facadeSet sizeFn now key v ttl false false st).1 = .error () := by
  refine ⟨?_, ?_, ?_, ?_, ?_, ?_, ?_, ?_, ?_⟩
  · simp [redisGet, h]
  · simp [redisDelete, h]
  · simp [redisHas, h]
  · simp [redisGetMultiple, h]
  · simp [redisInvalidatePattern, h]
  · simp [redisSet, h]
  · simp [redisSetMultiple, h]
  · simp [facadeGet, redisGet, h, hmiss]
  · simp [facadeSet, redisSet, h]

/-- C2 witness: the amended theorem applied at a concrete facade state
with the distributed tier down. -/
theorem c2_l2_unavailable_degrades_witness :
    facadeDownNat.redis.available = false ∧
      (facadeGet szNat 0 "k" false false none facadeDownNat).1 = none ∧
      (facadeSet szNat 0 "k" 7 300 false false facadeDownNat).1 =
        .error () :=
  ⟨by decide,
   (c2_l2_unavailable_degrades szNat facadeDownNat 0 "k" 7 300 [] "" []
      (by decide) (by decide)).2.2.2.2.2.2.2.1,
   (c2_l2_unavailable_degrades szNat facadeDownNat 0 "k" 7 300 [] "" []
      (by decide) (by decide)).2.2.2.2.2.2.2.2⟩

/-! ### C1 and C5 — the SWR read paths -/

/-- Every branch of `getWithMetadata` changes the state only through
the L1 read's own bookkeeping. -/
theorem facadeGetWithMetadata_state (now : Int) (key : String)
    (st : CacheServiceState α) :
    (facadeGetWithMetadata now key st).2 =
      { st with memory := (memGet now key st.memory).2 } := by
  unfold facadeGetWithMetadata
  cases h : (memGet now key st.memory).1 with
  | some v => simp [h]
  | none =>
    by_cases ha : st.redis.available = false
    · simp [h, ha]
    · cases hl : mapLookup st.redis.store ("lm:" ++ key) with
      | none => simp [h, ha, hl]
      | some entry => simp [h, ha, hl]

/-- The L1 read path never introduces or replaces a stored value: any
value mapping present afterwards was present before. -/
theorem memGet_value_subset (now : Int) (key : String) (m : MemoryCache α)
    (k2 : String) (w : α)
    (h : (mapLookup (memGet now key m).2.cache k2).map MemEntry.value =
      some w) :
    (mapLookup m.cache k2).map MemEntry.value = some w := by
  unfold memGet at h
  cases hl : mapLookup m.cache key with
  | none =>
    simp only [hl] at h
    exact h
  | some entry =>
    by_cases hexp : now > entry.expiresAt
    · simp only [hl, hexp, if_true] at h
      by_cases hk : k2 = key
      · rw [hk, mapLookup_mapDelete_self] at h
        simp at h
      · rwa [mapLookup_mapDelete_ne _ _ _ hk] at h
    · simp only [hl, hexp, if_false] at h
      by_cases hk : k2 = key
      · subst hk
        rw [mapLookup_mapSet_self] at h
        simp at h
        rw [hl]
        simpa using h
      · rwa [mapLookup_mapSet_ne _ _ _ _ hk] at h

/-- C1 counterexample: an L1 entry created at this very instant (true
age 0, far below `freshTTL = 10` s) is *not* served by the fresh path:
`getWithMetadata` reports the fabricated age of 30 s, so `getWithSWR`
takes the stale branch, schedules a revalidation and invokes `fetchFn`
— side effects the claim rules out. -/
theorem c1_counterexample :
    mapLookup c1StateNat.memory.cache "k" =
      some (mkEntryNat 7 1000000 1000000 1600000) ∧
      ((1000000 : Int) - (mkEntryNat 7 1000000 1000000 1600000).createdAt)
        < 10 * 1000 ∧
      (getWithSWR szNat 1000000 "k" (Except.ok 8) 10 600
        c1StateNat).fetchCalls = 1 ∧
      (getWithSWR szNat 1000000 "k" (Except.ok 8) 10 600
        c1StateNat).revalidationScheduled = true := by
  refine ⟨by decide, by decide, ?_, ?_⟩ <;> rfl

/-- C1 (amended): the age `getWithSWR` uses is the one reported by
`getWithMetadata` — the stored `createdAt` only when L2 serves the read;
an L1 hit reports the fixed estimate `now - 30000`.  Whenever that
reported age is below `freshTTL` seconds, the cached value is returned
immediately with no `fetchFn` call, no scheduled revalidation, and no
change to either tier beyond the L1 read's own bookkeeping. -/
theorem c1_fresh_path (sizeFn : α → Nat) (st : CacheServiceState α)
    (now : Int) (key : String) (fetcher : Fetcher α)
    (freshTTL staleTTL : Int) (v : α) (c : Int)
    (hmd : (facadeGetWithMetadata now key st).1 = some (v, c))
    (hfresh : now - c < freshTTL * 1000) :
    (getWithSWR sizeFn now key fetcher freshTTL staleTTL st).result =
        .ok v ∧
      (getWithSWR sizeFn now key fetcher freshTTL staleTTL st).fetchCalls =
        0 ∧
      (getWithSWR sizeFn now key fetcher freshTTL staleTTL
        st).revalidationScheduled = false ∧
      (getWithSWR sizeFn now key fetcher freshTTL staleTTL st).state =
        { st with memory := (memGet now key st.memory).2 } ∧
      ((memGet now key st.memory).1 = some v → c = now - 30000) ∧
      (∀ k2 w,
        (mapLookup (getWithSWR sizeFn now key fetcher freshTTL staleTTL
          st).state.memory.cache k2).map MemEntry.value = some w →
        (mapLookup st.memory.cache k2).map MemEntry.value = some w) := by
  have hrun : getWithSWR sizeFn now key fetcher freshTTL staleTTL st =
      ⟨.ok v, 0, false, (facadeGetWithMetadata now key st).2⟩ := by
    unfold getWithSWR
    simp only [hmd, hfresh, if_true]
  refine ⟨by rw [hrun], by rw [hrun], by rw [hrun], ?_, ?_, ?_⟩
  · rw [hrun]
    exact facadeGetWithMetadata_state now key st
  · intro hm
    unfold facadeGetWithMetadata at hmd
    simp only [hm] at hmd
    simp only [Option.some.injEq, Prod.mk.injEq] at hmd
    exact hmd.2.symm
  · intro k2 w hw
    rw [hrun, facadeGetWithMetadata_state now key st] at hw
    exact memGet_value_subset now key st.memory k2 w hw

/-- C1 witness: the amended theorem applied at the concrete state — the
L1 hit reports age 30 s, which is below `freshTTL = 60` s, so the fresh
path is taken with no side effects. -/
theorem c1_fresh_path_witness :
    (facadeGetWithMetadata 1000000 "k" c1StateNat).1 =
        some (7, 1000000 - 30000) ∧
      (getWithSWR szNat 1000000 "k" (Except.ok 8) 60 600
        c1StateNat).result = .ok 7 ∧
      (getWithSWR szNat 1000000 "k" (Except.ok 8) 60 600
        c1StateNat).fetchCalls = 0 :=
  ⟨by decide,
   (c1_fresh_path szNat c1StateNat 1000000 "k" (Except.ok 8) 60 600 7
      (1000000 - 30000) (by decide) (by decide)).1,
   (c1_fresh_path szNat c1StateNat 1000000 "k" (Except.ok 8) 60 600 7
      (1000000 - 30000) (by decide) (by decide)).2.1⟩

/-- C5: on the expired-or-absent path with a rejecting `fetchFn`,
`getWithSWR` returns the prior value whenever `this.get` can still
retrieve one from either tier, and propagates the error exactly when it
cannot. -/
theorem c5_stale_fallback (sizeFn : α → Nat) (st : CacheServiceState α)
    (now : Int) (key : String) (freshTTL staleTTL : Int)
    (hcfg : freshTTL ≤ staleTTL)
    (hpath : (facadeGetWithMetadata now key st).1 = none ∨
      ∃ v c, (facadeGetWithMetadata now key st).1 = some (v, c) ∧
        staleTTL * 1000 ≤ now - c) :
    (getWithSWR sizeFn now key (Except.error ()) freshTTL staleTTL
        st).fetchCalls = 1 ∧
      (∀ s, (facadeGet sizeFn now key false false none
          (facadeGetWithMetadata now key st).2).1 = some s →
        (getWithSWR sizeFn now key (Except.error ()) freshTTL staleTTL
          st).result = .ok s) ∧
      ((facadeGet sizeFn now key false false none
          (facadeGetWithMetadata now key st).2).1 = none →
        (getWithSWR sizeFn now key (Except.error ()) freshTTL staleTTL
          st).result = .error ()) := by
  have hfc : getWithSWR sizeFn now key (Except.error ()) freshTTL staleTTL
      st = fetchAndCache sizeFn now key (Except.error ()) freshTTL
        (facadeGetWithMetadata now key st).2 := by
    unfold getWithSWR
    rcases hpath with hnone | ⟨v, c, hsome, hage⟩
    · simp only [hnone]
    · have h1 : ¬(now - c < freshTTL * 1000) := by
        have : freshTTL * 1000 ≤ staleTTL * 1000 := by
          apply mul_le_mul_of_nonneg_right hcfg
          norm_num
        omega
      have h2 : ¬(now - c < staleTTL * 1000) := by omega
      simp only [hsome, h1, h2, if_false]
  have hfac : fetchAndCache sizeFn now key (Except.error () : Fetcher α)
      freshTTL (facadeGetWithMetadata now key st).2 =
      (match (facadeGet sizeFn now key false false none
          (facadeGetWithMetadata now key st).2).1 with
       | some s => ⟨.ok s, 1, false,
           (facadeGet sizeFn now key false false none
             (facadeGetWithMetadata now key st).2).2⟩
       | none => ⟨.error (), 1, false,
           (facadeGet sizeFn now key false false none
             (facadeGetWithMetadata now key st).2).2⟩) := by
    unfold fetchAndCache
    rfl
  refine ⟨?_, ?_, ?_⟩
  · rw [hfc, hfac]
    cases hg : (facadeGet sizeFn now key false false none
        (facadeGetWithMetadata now key st).2).1 <;> simp [hg]
  · intro s hs
    rw [hfc, hfac, hs]
  · intro hs
    rw [hfc, hfac, hs]

/-- C5 witness: the theorem applied on the cold path (no entry anywhere)
with a failing fetch — the error is propagated. -/
theorem c5_stale_fallback_witness :
    ((facadeGetWithMetadata 0 "k" facadeUpNat).1 =
        (none : Option (Nat × Int))) ∧
      (getWithSWR szNat 0 "k" (Except.error ()) 10 600
        facadeUpNat).result = .error () :=
  ⟨by decide,
   (c5_stale_fallback szNat facadeUpNat 0 "k" 10 600 (by decide)
      (Or.inl (by decide))).2.2 (by decide)⟩

/-! ### C3 — at most one in-flight background computation per key -/

theorem precompStep_eq_revalStep (s : DedupState) (a : DedupAct) :
    precompStep s a = revalStep s a := by
  cases a <;> rfl

theorem runReval_cons (s : DedupState) (a : DedupAct) (l : List DedupAct) :
    runReval s (a :: l) =
      match revalStep s a with
      | none => none
      | some s1 => runReval s1 l := rfl

theorem runPrecomp_cons (s : DedupState) (a : DedupAct)
    (l : List DedupAct) :
    runPrecomp s (a :: l) =
      match precompStep s a with
      | none => none
      | some s1 => runPrecomp s1 l := rfl

theorem runPrecomp_eq_runReval :
    ∀ (acts : List DedupAct) (s : DedupState),
      runPrecomp s acts = runReval s acts := by
  intro acts
  induction acts with
  | nil => intro s; rfl
  | cons a as ih =>
    intro s
    rw [runPrecomp_cons, runReval_cons, precompStep_eq_revalStep]
    cases revalStep s a with
    | none => rfl
    | some s1 => exact ih s1

theorem runReval_append :
    ∀ (e f : List DedupAct) (s : DedupState),
      runReval s (e ++ f) =
        match runReval s e with
        | none => none
        | some s1 => runReval s1 f := by
  intro e
  induction e with
  | nil => intro f s; rfl
  | cons a as ih =>
    intro f s
    rw [List.cons_append, runReval_cons, runReval_cons s a as]
    cases revalStep s a with
    | none => rfl
    | some s1 => exact ih f s1

theorem revalStep_inv (s s1 : DedupState) (a : DedupAct)
    (hstep : revalStep s a = some s1)
    (hinv : s.inflight ≤ 1 ∧ (s.marker = true ↔ s.inflight = 1)) :
    s1.inflight ≤ 1 ∧ (s1.marker = true ↔ s1.inflight = 1) := by
  cases a with
  | enter =>
    unfold revalStep at hstep
    by_cases hp : s.pending = 0
    · simp [hp] at hstep
    · by_cases hm : s.marker = true
      · simp only [hp, if_false, hm, if_true] at hstep
        cases hstep
        exact ⟨hinv.1, by simp [hinv.2.mp hm]⟩
      · simp only [hp, if_false, Bool.not_eq_true] at hstep
        rw [if_neg (by simpa using hm)] at hstep
        cases hstep
        have hz : s.inflight = 0 := by
          rcases Nat.lt_or_ge s.inflight 1 with h | h
          · omega
          · have h1 : s.inflight = 1 := by
              have := hinv.1
              omega
            exact absurd (hinv.2.mpr h1) hm
        simp [hz]
  | finish ok =>
    unfold revalStep at hstep
    by_cases hi : s.inflight = 0
    · simp [hi] at hstep
    · simp only [hi, if_false] at hstep
      cases hstep
      have h1 : s.inflight = 1 := by
        have := hinv.1
        omega
      simp [h1]

theorem runReval_inv :
    ∀ (acts : List DedupAct) (s s1 : DedupState),
      runReval s acts = some s1 →
      s.inflight ≤ 1 ∧ (s.marker = true ↔ s.inflight = 1) →
      s1.inflight ≤ 1 ∧ (s1.marker = true ↔ s1.inflight = 1) := by
  intro acts
  induction acts with
  | nil =>
    intro s s1 hrun hinv
    cases hrun
    exact hinv
  | cons a as ih =>
    intro s s1 hrun hinv
    rw [runReval_cons] at hrun
    cases hstep : revalStep s a with
    | none => rw [hstep] at hrun; cases hrun
    | some s2 =>
      rw [hstep] at hrun
      exact ih s2 s1 hrun (revalStep_inv s s2 a hstep hinv)

theorem runReval_enters_bound :
    ∀ (e : List DedupAct) (s s1 : DedupState),
      runReval s e = some s1 → (∀ a ∈ e, a = DedupAct.enter) →
      (s.fetchCount ≤ 1 ∧ (s.marker = false → s.fetchCount = 0)) →
      s1.fetchCount ≤ 1 ∧ (s1.marker = false → s1.fetchCount = 0) := by
  intro e
  induction e with
  | nil =>
    intro s s1 hrun _ hJ
    cases hrun
    exact hJ
  | cons a as ih =>
    intro s s1 hrun hall hJ
    have ha : a = DedupAct.enter := hall a (by simp)
    subst ha
    rw [runReval_cons] at hrun
    unfold revalStep at hrun
    by_cases hp : s.pending = 0
    · simp [hp] at hrun
    · by_cases hm : s.marker = true
      · simp only [hp, if_false, hm, if_true] at hrun
        refine ih _ s1 hrun (fun a h => hall a (by simp [h])) ?_
        refine ⟨hJ.1, ?_⟩
        intro hmf
        simp at hmf
      · simp only [hp, if_false, Bool.not_eq_true] at hrun
        rw [if_neg (by simpa using hm)] at hrun
        have hfc : s.fetchCount = 0 := hJ.2 (by simpa using hm)
        refine ih _ s1 hrun (fun a h => hall a (by simp [h])) ?_
        refine ⟨by simp [hfc], ?_⟩
        intro hmf
        simp at hmf

theorem runReval_noenter_fetchCount :
    ∀ (f : List DedupAct) (s s1 : DedupState),
      runReval s f = some s1 → (∀ a ∈ f, a.isEnter = false) →
      s1.fetchCount = s.fetchCount := by
  intro f
  induction f with
  | nil =>
    intro s s1 hrun _
    cases hrun
    rfl
  | cons a as ih =>
    intro s s1 hrun hall
    cases a with
    | enter =>
      exact absurd (hall .enter (by simp)) (by simp [DedupAct.isEnter])
    | finish ok =>
      rw [runReval_cons] at hrun
      unfold revalStep at hrun
      by_cases hi : s.inflight = 0
      · simp [hi] at hrun
      · simp only [hi, if_false] at hrun
        rw [ih _ s1 hrun (fun a h => hall a (by simp [h]))]

/-- C3: in the interleaving model of `revalidateInBackground`
(`processingKeys`) and of `precomputeResponse` (`processingQueue`) — in
which the has-check, the marker insertion and the fetch invocation form
one atomic step, as they do in a synchronous segment of the JS event
loop — every reachable state has at most one in-flight computation for
the key, the marker is held exactly while one is in flight (so it is
removed on completion, success or failure alike), and any schedule in
which the N calls all arrive before a completion performs at most one
fetch in total. -/
theorem c3_single_flight_dedup :
    (∀ (n : Nat) (acts : List DedupAct) (s1 : DedupState),
        runReval (dedupInit n) acts = some s1 →
        s1.inflight ≤ 1 ∧ (s1.marker = true ↔ s1.inflight = 1)) ∧
      (∀ (n : Nat) (e f : List DedupAct) (s1 : DedupState),
        runReval (dedupInit n) (e ++ f) = some s1 →
        (∀ a ∈ e, a = DedupAct.enter) → (∀ a ∈ f, a.isEnter = false) →
        s1.fetchCount ≤ 1) ∧
      (∀ (n : Nat) (acts : List DedupAct) (s1 : DedupState),
        runPrecomp (dedupInit n) acts = some s1 →
        s1.inflight ≤ 1 ∧ (s1.marker = true ↔ s1.inflight = 1)) ∧
      (∀ (n : Nat) (e f : List DedupAct) (s1 : DedupState),
        runPrecomp (dedupInit n) (e ++ f) = some s1 →
        (∀ a ∈ e, a = DedupAct.enter) → (∀ a ∈ f, a.isEnter = false) →
        s1.fetchCount ≤ 1) := by
  have hfc : ∀ (n : Nat) (e f : List DedupAct) (s1 : DedupState),
      runReval (dedupInit n) (e ++ f) = some s1 →
      (∀ a ∈ e, a = DedupAct.enter) → (∀ a ∈ f, a.isEnter = false) →
      s1.fetchCount ≤ 1 := by
    intro n e f s1 hrun he hf
    rw [runReval_append] at hrun
    cases hmid : runReval (dedupInit n) e with
    | none => rw [hmid] at hrun; cases hrun
    | some smid =>
      rw [hmid] at hrun
      have hJ := runReval_enters_bound e (dedupInit n) smid hmid he
        ⟨by simp [dedupInit], by intro _; simp [dedupInit]⟩
      rw [runReval_noenter_fetchCount f smid s1 hrun hf]
      exact hJ.1
  refine ⟨?_, hfc, ?_, ?_⟩
  · intro n acts s1 hrun
    exact runReval_inv acts (dedupInit n) s1 hrun
      ⟨by simp [dedupInit], by simp [dedupInit]⟩
  · intro n acts s1 hrun
    rw [runPrecomp_eq_runReval] at hrun
    exact runReval_inv acts (dedupInit n) s1 hrun
      ⟨by simp [dedupInit], by simp [dedupInit]⟩
  · intro n e f s1 hrun he hf
    rw [runPrecomp_eq_runReval] at hrun
    exact hfc n e f s1 hrun he hf

/-- C3 witness: three concurrent callers and one completion — the run
succeeds and exactly one fetch happened. -/
theorem c3_single_flight_dedup_witness :
    runReval (dedupInit 3)
        ([DedupAct.enter, DedupAct.enter, DedupAct.enter] ++
          [DedupAct.finish true]) =
      some { marker := false, fetchCount := 1, pending := 0, inflight := 0,
             finished := 3 } ∧
      ({ marker := false, fetchCount := 1, pending := 0, inflight := 0,
         finished := 3 } : DedupState).fetchCount ≤ 1 :=
  ⟨by decide,
   c3_single_flight_dedup.2.1 3
     [DedupAct.enter, DedupAct.enter, DedupAct.enter]
     [DedupAct.finish true] _ (by decide) (by decide) (by decide)⟩

/-! ### C9 — the precompute / serve split -/

theorem mapLookup_mapDelete_subset {β : Type} (l : List (String × β))
    (kd k2 : String) (e : β)
    (h : mapLookup (mapDelete l kd) k2 = some e) :
    mapLookup l k2 = some e := by
  by_cases hk : k2 = kd
  · rw [hk, mapLookup_mapDelete_self] at h
    cases h
  · rwa [mapLookup_mapDelete_ne _ _ _ hk] at h

/-- A `RedisCache.get` never introduces or replaces a stored entry. -/
theorem redisGet_store_subset (now : Int) (key : String)
    (r : RedisCache α) (k : String) (e : RedisEntry α)
    (h : mapLookup (redisGet now key r).2.store k = some e) :
    mapLookup r.store k = some e := by
  unfold redisGet at h
  by_cases ha : r.available = false
  · simpa [ha] using h
  · have ha2 : r.available = true := by simpa using ha
    simp only [ha2, Bool.true_eq_false, if_false] at h
    cases hl : mapLookup r.store (keyPrefix ++ key) with
    | none => simpa [hl] using h
    | some entry =>
      simp only [hl] at h
      by_cases hexp : entry.expiresAt ≠ 0 ∧ now > entry.expiresAt
      · rw [if_pos hexp] at h
        exact mapLookup_mapDelete_subset _ _ _ _ (by simpa using h)
      · rw [if_neg hexp] at h
        simpa using h

/-- A `MemoryCache.set` adds or replaces only the written key's value. -/
theorem memSet_value_cases (sizeFn : α → Nat) (now : Int) (key : String)
    (v : α) (ttl : Option Int) (m : MemoryCache α) (k2 : String) (w : α)
    (h : (mapLookup (memSet sizeFn now key v ttl m).cache k2).map
      MemEntry.value = some w) :
    (mapLookup m.cache k2).map MemEntry.value = some w ∨
      (k2 = key ∧ w = v) := by
  unfold memSet at h
  by_cases hk : k2 = key
  · subst hk
    rw [mapLookup_mapSet_self] at h
    right
    exact ⟨rfl, (Option.some.inj (show some v = some w from h)).symm⟩
  · rw [mapLookup_mapSet_ne _ _ _ _ hk] at h
    left
    by_cases hcond : m.maxSize ≤ m.cache.length ∧ mapHas m.cache key = false
    · rw [if_pos hcond] at h
      unfold evictLRU at h
      by_cases hnz : (m.cache.foldl lruScanStep ("", now)).1 ≠ ""
      · rw [if_pos hnz] at h
        have h2 : (mapLookup (mapDelete m.cache
            (m.cache.foldl lruScanStep ("", now)).1) k2).map
            MemEntry.value = some w := h
        cases hml : mapLookup (mapDelete m.cache
            (m.cache.foldl lruScanStep ("", now)).1) k2 with
        | none => rw [hml] at h2; cases h2
        | some e2 =>
          rw [mapLookup_mapDelete_subset _ _ _ _ hml]
          rw [hml] at h2
          exact h2
      · rw [if_neg hnz] at h
        exact h
    · rwa [if_neg hcond] at h

/-- Characterization of the facade `get` with default options: L1
first, then L2, populating L1 (with the capped TTL) on an L2 hit. -/
theorem facadeGet_eq (sizeFn : α → Nat) (now : Int) (key : String)
    (ttlOpt : Option Int) (st : CacheServiceState α) :
    facadeGet sizeFn now key false false ttlOpt st =
      match (memGet now key st.memory).1 with
      | some v =>
        (some v, { st with memory := (memGet now key st.memory).2,
                           memoryHits := st.memoryHits + 1 })
      | none =>
        match (redisGet now key st.redis).1 with
        | some v =>
          (some v,
           { st with
               memory := memSet sizeFn now key v
                 (some (min (jsOr ttlOpt 300) 300 * 1000))
                 (memGet now key st.memory).2,
               redis := (redisGet now key st.redis).2,
               redisHits := st.redisHits + 1 })
        | none =>
          (none, { st with memory := (memGet now key st.memory).2,
                           redis := (redisGet now key st.redis).2,
                           misses := st.misses + 1 }) := by
  unfold facadeGet
  cases hm : (memGet now key st.memory).1 with
  | some v => simp [hm]
  | none =>
    cases hr : (redisGet now key st.redis).1 with
    | some v => simp [hm, hr]
    | none => simp [hm, hr]

/-- Every branch of the facade `get` leaves the ghost log unchanged
(the L1 population on an L2 hit is an internal `memoryCache.set`, not a
facade-level write). -/
theorem facadeGet_log (sizeFn : α → Nat) (now : Int) (key : String)
    (skipMemory skipRedis : Bool) (ttlOpt : Option Int)
    (st : CacheServiceState α) :
    (facadeGet sizeFn now key skipMemory skipRedis ttlOpt st).2.log =
      st.log := by
  unfold facadeGet
  by_cases hm : skipMemory = false
  · cases h1 : (memGet now key st.memory).1 with
    | some v => simp [hm, h1]
    | none =>
      by_cases hr : skipRedis = false
      · cases h2 : (redisGet now key st.redis).1 with
        | some v => simp [hm, h1, hr, h2]
        | none => simp [hm, h1, hr, h2]
      · simp [hm, h1, hr]
  · by_cases hr : skipRedis = false
    · cases h2 : (redisGet now key st.redis).1 with
      | some v => simp [hm, hr, h2]
      | none => simp [hm, hr, h2]
    · simp [hm, hr]

/-- The facade `set` records exactly one ghost event, carrying the key
and the requested TTL. -/
theorem facadeSet_log (sizeFn : α → Nat) (now : Int) (key : String)
    (v : α) (ttl : Int) (skipMemory skipRedis : Bool)
    (st : CacheServiceState α) :
    (facadeSet sizeFn now key v ttl skipMemory skipRedis st).2.log =
      st.log ++ [FEvent.setEv key ttl] := rfl

/-- A successful precomputation stores through the facade under the
`precomputed:` namespace with TTL `ttl || (high ? 86400 : 3600)`. -/
theorem precomputeResponse_ok_log (szF : PrecomputedResponse α → Nat)
    (etagFn : α → String) (now : Int) (endpoint : String) (v : α)
    (priority : Priority) (ttlOpt : Option Int)
    (st : CacheServiceState (PrecomputedResponse α)) :
    (precomputeResponse szF etagFn now endpoint (.ok v) priority ttlOpt
        st).2.log =
      st.log ++ [FEvent.setEv ("precomputed:" ++ endpoint)
        (jsOr ttlOpt (if priority = Priority.high then 86400 else 3600))]
    := by
  unfold precomputeResponse
  simp only [performPrecomputation]
  split <;> rw [facadeSet_log]

/-- C9 counterexample: `getPrecomputed` on a key held only by L2 returns
the value *and writes it into L1* — the claim's "never writes to any
tier" is false on this state. -/
theorem c9_counterexample :
    mapHas facadePrecompNat.memory.cache "precomputed:e" = false ∧
      (getPrecomputed szResp 10 "e" facadePrecompNat).1 = some respNat ∧
      mapHas (getPrecomputed szResp 10 "e"
        facadePrecompNat).2.memory.cache "precomputed:e" = true := by
  exact ⟨rfl, rfl, rfl⟩

/-- C9 (amended): `precompute` stores through the facade under
`precomputed: + endpointKey` with TTL 86400 s for high priority and
3600 s otherwise, unless a nonzero explicit ttl overrides it.
`getPrecomputed` performs only a facade read of that key: it takes no
fetch function, returns null when both tiers miss, performs no
facade-level write, never adds or changes an L2 entry, and writes to L1
only the value it just read from L2 under the read key (plus the L1
read's own bookkeeping). -/
theorem c9_precompute_contract (szF : PrecomputedResponse α → Nat)
    (etagFn : α → String) (st : CacheServiceState (PrecomputedResponse α))
    (now : Int) (endpoint : String) (v : α) (priority : Priority)
    (t : Int) (hnz : t ≠ 0) :
    ((precomputeResponse szF etagFn now endpoint (.ok v) priority none
        st).2.log =
      st.log ++ [FEvent.setEv ("precomputed:" ++ endpoint)
        (if priority = Priority.high then 86400 else 3600)]) ∧
      ((precomputeResponse szF etagFn now endpoint (.ok v) priority
          (some t) st).2.log =
        st.log ++ [FEvent.setEv ("precomputed:" ++ endpoint) t]) ∧
      ((memGet now ("precomputed:" ++ endpoint) st.memory).1 = none →
        (redisGet now ("precomputed:" ++ endpoint) st.redis).1 = none →
        (getPrecomputed szF now endpoint st).1 = none) ∧
      ((getPrecomputed szF now endpoint st).2.log = st.log) ∧
      (∀ k e, mapLookup (getPrecomputed szF now endpoint
          st).2.redis.store k = some e →
        mapLookup st.redis.store k = some e) ∧
      (∀ k2 w, (mapLookup (getPrecomputed szF now endpoint
          st).2.memory.cache k2).map MemEntry.value = some w →
        (mapLookup st.memory.cache k2).map MemEntry.value = some w ∨
          (k2 = "precomputed:" ++ endpoint ∧
            (redisGet now ("precomputed:" ++ endpoint) st.redis).1 =
              some w)) := by
  refine ⟨?_, ?_, ?_, ?_, ?_, ?_⟩
  · rw [precomputeResponse_ok_log]
    rfl
  · rw [precomputeResponse_ok_log]
    simp [jsOr, hnz]
  · intro hm hr
    unfold getPrecomputed facadeGet
    simp [hm, hr]
  · exact facadeGet_log szF now ("precomputed:" ++ endpoint) false false
      none st
  · intro k e h
    unfold getPrecomputed at h
    rw [facadeGet_eq] at h
    revert h
    cases h1 : (memGet now ("precomputed:" ++ endpoint) st.memory).1 with
    | some w =>
      intro h
      exact h
    | none =>
      cases h2 : (redisGet now ("precomputed:" ++ endpoint) st.redis).1
        with
      | some w =>
        intro h
        exact redisGet_store_subset now ("precomputed:" ++ endpoint)
          st.redis k e h
      | none =>
        intro h
        exact redisGet_store_subset now ("precomputed:" ++ endpoint)
          st.redis k e h
  · intro k2 w h
    unfold getPrecomputed at h
    rw [facadeGet_eq] at h
    revert h
    cases h1 : (memGet now ("precomputed:" ++ endpoint) st.memory).1 with
    | some u =>
      intro h
      left
      exact memGet_value_subset now ("precomputed:" ++ endpoint)
        st.memory k2 w h
    | none =>
      cases h2 : (redisGet now ("precomputed:" ++ endpoint) st.redis).1
        with
      | some u =>
        intro h
        rcases memSet_value_cases szF now ("precomputed:" ++ endpoint) u
            (some (min (jsOr none 300) 300 * 1000))
            (memGet now ("precomputed:" ++ endpoint) st.memory).2 k2 w h
          with hsub | ⟨hk, hw⟩
        · left
          exact memGet_value_subset now ("precomputed:" ++ endpoint)
            st.memory k2 w hsub
        · right
          refine ⟨hk, ?_⟩
          rw [hw]
      | none =>
        intro h
        left
        exact memGet_value_subset now ("precomputed:" ++ endpoint)
          st.memory k2 w h

/-- C9 witness: the amended theorem applied at the concrete state — a
high-priority precompute without explicit ttl logs a 86400 s facade
write, and `getPrecomputed` of an absent endpoint returns null. -/
theorem c9_precompute_contract_witness :
    ((precomputeResponse szResp (fun _ => "E") 0 "x" (Except.ok 5)
        Priority.high none facadePrecompNat).2.log =
      facadePrecompNat.log ++
        [FEvent.setEv ("precomputed:" ++ "x") 86400]) ∧
      (getPrecomputed szResp 0 "x" facadePrecompNat).1 = none :=
  ⟨by
    have h := (c9_precompute_contract szResp (fun _ => "E")
      facadePrecompNat 0 "x" 5 Priority.high 1 (by decide)).1
    simpa using h,
   (c9_precompute_contract szResp (fun _ => "E") facadePrecompNat 0 "x" 5
      Priority.high 1 (by decide)).2.2.1 (by decide) (by decide)⟩

/-! ### C7 — cascading invalidation -/

/-- The facade `invalidatePattern` appends exactly one ghost event,
carrying the pattern and the returned count. -/
theorem facadeInvalidatePattern_log (p : String)
    (st : CacheServiceState α) :
    (facadeInvalidatePattern p st).2.log =
      st.log ++ [FEvent.invEv p (facadeInvalidatePattern p st).1] := by
  unfold facadeInvalidatePattern
  cases h : memInvalidatePattern p st.memory with
  | none => rfl
  | some r =>
    obtain ⟨mc, mem1⟩ := r
    rfl

/-- C7 counterexample: for the spec's dependency edges A→B, B→C, B→A,
the transitive closure of A is {A, B, C}, but `invalidateProperty("A")`
invalidates only its three fixed patterns — neither "B" nor "C" (nor
even the pattern "A") is among them. -/
theorem c7_counterexample :
    ("B" ∈ specClosure [("A", ["B"]), ("B", ["C", "A"])] "A" ∧
      "C" ∈ specClosure [("A", ["B"]), ("B", ["C", "A"])] "A") ∧
      ((invalidateProperty "A" facadeUpNat).2.log.map fun e =>
        match e with
        | FEvent.invEv p _ => p
        | FEvent.setEv k _ => k) =
        ["precomputed:properties/A", "precomputed:properties/featured",
         "precomputed:properties?*"] ∧
      ("B" ∉ ["precomputed:properties/A", "precomputed:properties/featured",
         "precomputed:properties?*"]) ∧
      ("C" ∉ ["precomputed:properties/A", "precomputed:properties/featured",
         "precomputed:properties?*"]) := by
  refine ⟨⟨by decide, by decide⟩, ?_, by decide, by decide⟩
  rfl

/-- C7 (amended): `invalidateProperty(propref)` performs no dependency
traversal; it always terminates after invalidating, through the facade
and in order, exactly its three fixed patterns — the property's own
precomputed key, the featured key, and the listings wildcard — and
returns the sum of the three per-pattern affected-key counts. -/
theorem c7_fixed_patterns (st : CacheServiceState α) (propref : String) :
    (invalidateProperty propref st).2.log = st.log ++
      [FEvent.invEv ("precomputed:properties/" ++ propref)
        (facadeInvalidatePattern ("precomputed:properties/" ++ propref)
          st).1,
       FEvent.invEv "precomputed:properties/featured"
        (facadeInvalidatePattern "precomputed:properties/featured"
          (facadeInvalidatePattern ("precomputed:properties/" ++ propref)
            st).2).1,
       FEvent.invEv "precomputed:properties?*"
        (facadeInvalidatePattern "precomputed:properties?*"
          (facadeInvalidatePattern "precomputed:properties/featured"
            (facadeInvalidatePattern
              ("precomputed:properties/" ++ propref) st).2).2).1] ∧
      (invalidateProperty propref st).1 =
        (facadeInvalidatePattern ("precomputed:properties/" ++ propref)
          st).1 +
        (facadeInvalidatePattern "precomputed:properties/featured"
          (facadeInvalidatePattern ("precomputed:properties/" ++ propref)
            st).2).1 +
        (facadeInvalidatePattern "precomputed:properties?*"
          (facadeInvalidatePattern "precomputed:properties/featured"
            (facadeInvalidatePattern
              ("precomputed:properties/" ++ propref) st).2).2).1 := by
  constructor
  · have h1 := facadeInvalidatePattern_log
      ("precomputed:properties/" ++ propref) st
    have h2 := facadeInvalidatePattern_log "precomputed:properties/featured"
      (facadeInvalidatePattern ("precomputed:properties/" ++ propref) st).2
    have h3 := facadeInvalidatePattern_log "precomputed:properties?*"
      (facadeInvalidatePattern "precomputed:properties/featured"
        (facadeInvalidatePattern ("precomputed:properties/" ++ propref)
          st).2).2
    have hstate : (invalidateProperty propref st).2 =
        (facadeInvalidatePattern "precomputed:properties?*"
          (facadeInvalidatePattern "precomputed:properties/featured"
            (facadeInvalidatePattern
              ("precomputed:properties/" ++ propref) st).2).2).2 := rfl
    rw [hstate, h3, h2, h1]
    simp [List.append_assoc]
  · have hcount : (invalidateProperty propref st).1 =
        0 + (facadeInvalidatePattern ("precomputed:properties/" ++ propref)
          st).1 +
        (facadeInvalidatePattern "precomputed:properties/featured"
          (facadeInvalidatePattern ("precomputed:properties/" ++ propref)
            st).2).1 +
        (facadeInvalidatePattern "precomputed:properties?*"
          (facadeInvalidatePattern "precomputed:properties/featured"
            (facadeInvalidatePattern
              ("precomputed:properties/" ++ propref) st).2).2).1 := rfl
    rw [hcount]
    omega

/-- C7 witness: the amended theorem applied at a concrete state. -/
theorem c7_fixed_patterns_witness :
    (invalidateProperty "A" facadeUpNat).2.log =
      facadeUpNat.log ++
        [FEvent.invEv ("precomputed:properties/" ++ "A")
          (facadeInvalidatePattern ("precomputed:properties/" ++ "A")
            facadeUpNat).1,
         FEvent.invEv "precomputed:properties/featured"
          (facadeInvalidatePattern "precomputed:properties/featured"
            (facadeInvalidatePattern ("precomputed:properties/" ++ "A")
              facadeUpNat).2).1,
         FEvent.invEv "precomputed:properties?*"
          (facadeInvalidatePattern "precomputed:properties?*"
            (facadeInvalidatePattern "precomputed:properties/featured"
              (facadeInvalidatePattern
                ("precomputed:properties/" ++ "A") facadeUpNat).2).2).1] :=
  (c7_fixed_patterns facadeUpNat "A").1

end LMRender
